import Mathlib

/-!
Verification of the segmented, concurrency-bounded transcription pipeline
(`transcriber/model.py`, `transcriber/audio.py`, `transcriber/utils.py`).

Modeling conventions:
* Real-valued quantities (durations, timestamps, byte-rate estimates) are
  modeled as exact rationals (`ℚ`).
* Fallible external calls (the transcription client, `ffprobe`) are modeled
  as explicit outcome data (`AttemptOutcome`, `Option`-valued probes):
  an exception raised by the client corresponds to `AttemptOutcome.err`.
* Filesystem state is passed explicitly (directory listings as `List String`,
  file sizes/contents as functions).
-/

namespace Transcribe

/-- Characters removed by `clean_some_unicode_from_text`
(src/transcriber/utils.py): Arabic letter mark, zero-width
space/non-joiner/joiner, LTR/RTL marks, directional embeddings/overrides,
isolate controls, zero-width no-break space. -/
def charsToRemove : List Char :=
  ['\u061C', '\u200B', '\u200C', '\u200D', '\u200E', '\u200F',
   '\u202A', '\u202B', '\u202C', '\u202D', '\u202E',
   '\u2066', '\u2067', '\u2068', '\u2069', '\uFEFF']

/-- Embeds `clean_some_unicode_from_text` (src/transcriber/utils.py):
`str.translate` with a table mapping each listed character to `None`,
i.e. deletion of every occurrence. -/
def clean_some_unicode_from_text (s : String) : String :=
  ⟨s.data.filter (fun c => !(charsToRemove.contains c))⟩

/-- The characters that Python `str.isspace` recognizes, which is the set
stripped by `str.strip()` with no argument. -/
def isPySpace (c : Char) : Bool :=
  ([' ', '\t', '\n', '\r', '\x0b', '\x0c',
    '\x1c', '\x1d', '\x1e', '\x1f', '\u0085', '\u00A0', '\u1680',
    '\u2000', '\u2001', '\u2002', '\u2003', '\u2004', '\u2005', '\u2006',
    '\u2007', '\u2008', '\u2009', '\u200A', '\u2028', '\u2029', '\u202F',
    '\u205F', '\u3000'] : List Char).contains c

/-- Embeds Python `str.strip()` with no argument: remove leading and
trailing whitespace characters. -/
def pyStrip (s : String) : String :=
  ⟨((s.data.dropWhile isPySpace).reverse.dropWhile isPySpace).reverse⟩

/-- Embeds the Python builtin `round` to an integer (no `ndigits`):
round half to even. -/
def pythonRound (q : ℚ) : ℤ :=
  let f := ⌊q⌋
  let r := q - (f : ℚ)
  if r < 1/2 then f
  else if 1/2 < r then f + 1
  else if 2 ∣ f then f else f + 1

/-- Embeds the Python format `f"{n:02d}"` for the integers produced by
`_format_ts`: left-pad with a zero to width 2. -/
def pad2 (n : ℤ) : String :=
  if 0 ≤ n ∧ n ≤ 9 then "0" ++ toString n else toString n

/-- Embeds `_format_ts` (src/transcriber/model.py lines 10-15):
`total = int(round(seconds))`, then hours/minutes/seconds by floor
division and remainder (Python `//` and `%` agree with the Lean integer
`/` and `%` here because the divisors are positive), each rendered
zero-padded to two digits. -/
def _format_ts (seconds : ℚ) : String :=
  let total := pythonRound seconds
  let h := total / 3600
  let m := (total % 3600) / 60
  let s := total % 60
  pad2 h ++ ":" ++ pad2 m ++ ":" ++ pad2 s

/-- One call to the transcription client for one segment
(`model.transcribe_async` plus the `async for` consumption of its lazy
fragment sequence): either the sequence completes, yielding the list of
fragment texts, or it raises an exception with message `msg`. -/
inductive AttemptOutcome where
  | ok (fragments : List String)
  | err (msg : String)

/-- The record `{"index": index, "text": text}` returned by
`transcribe_segment`. -/
structure SegResult where
  index : Nat
  text : String
deriving DecidableEq

/-- Outcome of the body of one iteration of the retry loop in
`transcribe_segment`: either a successful non-empty cleaned text, or a
failure together with the value assigned to `last_error`. -/
inductive AttemptResult where
  | success (text : String)
  | failure (lastError : String)
deriving DecidableEq

/-- One iteration of the retry loop in `transcribe_segment`
(src/transcriber/model.py lines 34-49): consume the fragment sequence,
clean each fragment, join with newlines and strip; empty text sets
`last_error = "empty transcription"`, an exception sets
`last_error = str(e)`. -/
def evalAttempt (o : AttemptOutcome) : AttemptResult :=
  match o with
  | .err msg => .failure msg
  | .ok frags =>
      let text := pyStrip (String.intercalate "\n" (frags.map clean_some_unicode_from_text))
      if text = "" then .failure "empty transcription" else .success text

/-- State after running the retry loop of `transcribe_segment`:
`text` is `some t` on early return (success), `lastError` is the final
value of the `last_error` variable, `attemptsMade` counts loop
iterations actually executed. -/
structure LoopOutcome where
  text : Option String
  lastError : Option String
  attemptsMade : Nat
deriving DecidableEq

/-- The retry loop `for attempt in range(1, attempts + 1)` of
`transcribe_segment`, parameterized by the list of attempt numbers still
to run: a successful attempt returns immediately; a failed attempt
records `last_error` and continues. (The backoff sleep between failed
attempts does not affect the returned value.) -/
def runAttempts (client : Nat → AttemptOutcome) (lastError : Option String) :
    List Nat → LoopOutcome
  | [] => ⟨none, lastError, 0⟩
  | a :: rest =>
    match evalAttempt (client a) with
    | .success t => ⟨some t, lastError, 1⟩
    | .failure e =>
      let r := runAttempts client (some e) rest
      ⟨r.text, r.lastError, r.attemptsMade + 1⟩

/-- The whole retry loop of `transcribe_segment`: attempts are numbered
`1 .. max_retries + 1`, `last_error` starts as `None`. -/
def transcribeSegmentRun (model : String → Nat → AttemptOutcome)
    (segment_path : String) (max_retries : Nat) : LoopOutcome :=
  runAttempts (model segment_path) none (List.range' 1 (max_retries + 1))

/-- The placeholder built when all attempts failed
(src/transcriber/model.py lines 54-58): `reason = last_error or "unknown"`
(Python `or` falls through on `None` and on the empty string). -/
def placeholderText (start_s end_s : ℚ) (lastError : Option String) : String :=
  let reason := match lastError with
    | some e => if e = "" then "unknown" else e
    | none => "unknown"
  "[Transcription failed - " ++ _format_ts start_s ++ " - " ++ _format_ts end_s ++
    " Reason: " ++ reason ++ "]"

/-- Embeds `transcribe_segment` (src/transcriber/model.py lines 30-59).
The `model` argument gives, for each segment path and 1-based attempt
number, the outcome of that call to the transcription client. -/
def transcribe_segment (model : String → Nat → AttemptOutcome)
    (segment_path : String) (index : Nat) (start_s end_s : ℚ)
    (max_retries : Nat) : SegResult :=
  let out := transcribeSegmentRun model segment_path max_retries
  match out.text with
  | some t => ⟨index, t⟩
  | none => ⟨index, placeholderText start_s end_s out.lastError⟩

theorem pythonRound_intCast (n : ℤ) : pythonRound ((n : ℚ)) = n := by
  unfold pythonRound
  rw [Int.floor_intCast]
  norm_num

theorem format_ts_intCast (n : ℤ) :
    _format_ts ((n : ℚ)) =
      pad2 (n / 3600) ++ ":" ++ pad2 ((n % 3600) / 60) ++ ":" ++ pad2 (n % 60) := by
  unfold _format_ts
  rw [pythonRound_intCast]

theorem format_ts_ten : _format_ts 10 = "00:00:10" := by
  rw [show (10 : ℚ) = ((10 : ℤ) : ℚ) by norm_num, format_ts_intCast]
  decide

theorem format_ts_3661 : _format_ts 3661 = "01:01:01" := by
  rw [show (3661 : ℚ) = ((3661 : ℤ) : ℚ) by norm_num, format_ts_intCast]
  decide

theorem runAttempts_length_le (client : Nat → AttemptOutcome)
    (le' : Option String) (l : List Nat) :
    (runAttempts client le' l).attemptsMade ≤ l.length := by
  induction l generalizing le' with
  | nil => simp [runAttempts]
  | cons a rest ih =>
    simp only [runAttempts]
    cases evalAttempt (client a) with
    | success t => simp
    | failure e =>
      simpa using Nat.succ_le_succ (ih (some e))

theorem runAttempts_cons_fail (client : Nat → AttemptOutcome)
    (le' : Option String) (a : Nat) (l : List Nat) (e : String)
    (h : evalAttempt (client a) = .failure e) :
    runAttempts client le' (a :: l) =
      ⟨(runAttempts client (some e) l).text,
       (runAttempts client (some e) l).lastError,
       (runAttempts client (some e) l).attemptsMade + 1⟩ := by
  simp only [runAttempts, h]

theorem runAttempts_success (client : Nat → AttemptOutcome)
    (l : List Nat) (b : Nat) (rest : List Nat) (t : String) (le' : Option String)
    (hl : ∀ a ∈ l, ∃ e, evalAttempt (client a) = .failure e)
    (hb : evalAttempt (client b) = .success t) :
    (runAttempts client le' (l ++ b :: rest)).text = some t ∧
    (runAttempts client le' (l ++ b :: rest)).attemptsMade = l.length + 1 := by
  induction l generalizing le' with
  | nil => simp [runAttempts, hb]
  | cons a l ih =>
    obtain ⟨e, he⟩ := hl a (by simp)
    have h2 := ih (some e) (fun x hx => hl x (by simp [hx]))
    rw [List.cons_append, runAttempts_cons_fail client le' a _ e he]
    exact ⟨h2.1, by simp [h2.2]⟩

theorem runAttempts_all_fail (client : Nat → AttemptOutcome) (f : Nat → String) :
    ∀ (l : List Nat) (le' : Option String),
    (∀ a ∈ l, evalAttempt (client a) = .failure (f a)) → l ≠ [] →
    (runAttempts client le' l).text = none ∧
    (runAttempts client le' l).lastError = l.getLast?.map f ∧
    (runAttempts client le' l).attemptsMade = l.length := by
  intro l
  induction l with
  | nil => intro le' _ hne; exact absurd rfl hne
  | cons a l ih =>
    intro le' hf _
    have ha := hf a (by simp)
    cases l with
    | nil => simp [runAttempts, ha]
    | cons b l' =>
      have h2 := ih (some (f a)) (fun x hx => hf x (by simp [hx])) (by simp)
      rw [runAttempts_cons_fail client le' a _ (f a) ha]
      refine ⟨h2.1, ?_, by simp [h2.2.2]⟩
      rw [h2.2.1, List.getLast?_cons_cons]

theorem range'_getLast? (s : Nat) :
    ∀ n : Nat, 1 ≤ n → (List.range' s n).getLast? = some (s + n - 1) := by
  intro n hn
  obtain ⟨m, rfl⟩ : ∃ m, n = m + 1 := ⟨n - 1, (Nat.succ_pred_eq_of_pos hn).symm⟩
  rw [List.range'_concat, List.getLast?_concat]
  simp [Nat.add_sub_cancel]

theorem pythonRound_near (q : ℚ) : |((pythonRound q : ℤ) : ℚ) - q| ≤ 1/2 := by
  have h0 : ((⌊q⌋ : ℤ) : ℚ) ≤ q := Int.floor_le q
  have h1 : q < ((⌊q⌋ : ℤ) : ℚ) + 1 := Int.lt_floor_add_one q
  simp only [pythonRound]
  by_cases hc1 : q - ((⌊q⌋ : ℤ) : ℚ) < 1/2
  · rw [if_pos hc1, abs_le]
    constructor <;> linarith
  · rw [if_neg hc1]
    by_cases hc2 : 1/2 < q - ((⌊q⌋ : ℤ) : ℚ)
    · rw [if_pos hc2, abs_le]
      push_cast
      constructor <;> linarith
    · rw [if_neg hc2]
      have heq : q - ((⌊q⌋ : ℤ) : ℚ) = 1/2 :=
        le_antisymm (not_lt.1 hc2) (not_lt.1 hc1)
      by_cases hp : 2 ∣ ⌊q⌋
      · rw [if_pos hp, abs_le]
        constructor <;> linarith
      · rw [if_neg hp, abs_le]
        push_cast
        constructor <;> linarith

/-- C4: when every one of the `max_retries + 1` attempts fails (each
failure carrying the `last_error` string `f a`, which is the exception
message or the literal `"empty transcription"`), the returned text is
exactly the bracketed placeholder built from the two formatted timestamps
and the reason of the final attempt, with `"unknown"` substituted when the
final message is empty; moreover the rounding used by `_format_ts` is to a
nearest whole second, and the timestamp format is zero-padded
hours:minutes:seconds. -/
theorem transcribe_segment_placeholder_format
    (model : String → Nat → AttemptOutcome) (p : String) (i : Nat)
    (st en : ℚ) (max_retries : Nat) (f : Nat → String)
    (hfail : ∀ a, 1 ≤ a → a ≤ max_retries + 1 →
      evalAttempt (model p a) = .failure (f a)) :
    transcribe_segment model p i st en max_retries =
      ⟨i, "[Transcription failed - " ++ _format_ts st ++ " - " ++ _format_ts en ++
        " Reason: " ++
        (if f (max_retries + 1) = "" then "unknown" else f (max_retries + 1)) ++ "]"⟩ ∧
    (∀ q : ℚ, |((pythonRound q : ℤ) : ℚ) - q| ≤ 1/2) ∧
    (∀ q : ℚ, _format_ts q =
      pad2 (pythonRound q / 3600) ++ ":" ++ pad2 ((pythonRound q % 3600) / 60) ++
        ":" ++ pad2 (pythonRound q % 60)) := by
  refine ⟨?_, fun q => pythonRound_near q, fun q => rfl⟩
  have hne : List.range' 1 (max_retries + 1) ≠ [] := by
    rw [List.range'_concat]
    simp
  have hmem : ∀ a ∈ List.range' 1 (max_retries + 1),
      evalAttempt (model p a) = .failure (f a) := by
    intro a ha
    rw [List.mem_range'_1] at ha
    exact hfail a ha.1 (by omega)
  have h := runAttempts_all_fail (model p) f _ none hmem hne
  have hlast : (List.range' 1 (max_retries + 1)).getLast? = some (max_retries + 1) := by
    rw [range'_getLast? 1 (max_retries + 1) (by omega)]
    exact congrArg some (by omega)
  have ht : (transcribeSegmentRun model p max_retries).text = none := h.1
  have hle : (transcribeSegmentRun model p max_retries).lastError =
      some (f (max_retries + 1)) := by
    have := h.2.1
    rw [hlast] at this
    exact this
  simp only [transcribe_segment]
  rw [ht, hle]
  rfl

/-- C5: the retry loop makes at most `max_retries + 1` attempts in total,
and if the client fails the first `k ≤ max_retries` attempts and succeeds
on attempt `k + 1` with non-empty cleaned text `t`, the result is
`{index, t}` and exactly `k + 1` attempts were made (no attempt follows
the first success). -/
theorem transcribe_segment_retry_budget
    (model : String → Nat → AttemptOutcome) (p : String) (i : Nat)
    (st en : ℚ) (max_retries k : Nat) (t : String)
    (hk : k ≤ max_retries)
    (hfail : ∀ a, 1 ≤ a → a ≤ k → ∃ e, evalAttempt (model p a) = .failure e)
    (hsucc : evalAttempt (model p (k + 1)) = .success t) :
    transcribe_segment model p i st en max_retries = ⟨i, t⟩ ∧
    (transcribeSegmentRun model p max_retries).attemptsMade = k + 1 ∧
    (∀ (model' : String → Nat → AttemptOutcome) (p' : String) (r' : Nat),
      (transcribeSegmentRun model' p' r').attemptsMade ≤ r' + 1) := by
  have hsplit : List.range' 1 (max_retries + 1) =
      List.range' 1 k ++ (k + 1) :: List.range' (k + 2) (max_retries - k) := by
    have h1 := List.range'_append 1 k (max_retries + 1 - k) 1
    rw [one_mul] at h1
    have h2 : max_retries + 1 - k + k = max_retries + 1 := by omega
    have h3 : max_retries + 1 - k = (max_retries - k) + 1 := by omega
    have h4 : 1 + k = k + 1 := by omega
    rw [h2] at h1
    rw [← h1, h3, h4]
    rfl
  have hmem : ∀ a ∈ List.range' 1 k, ∃ e, evalAttempt (model p a) = .failure e := by
    intro a ha
    rw [List.mem_range'_1] at ha
    exact hfail a ha.1 (by omega)
  have h := runAttempts_success (model p) (List.range' 1 k) (k + 1)
    (List.range' (k + 2) (max_retries - k)) t none hmem hsucc
  rw [← hsplit] at h
  have ht : (transcribeSegmentRun model p max_retries).text = some t := h.1
  have hcount : (transcribeSegmentRun model p max_retries).attemptsMade = k + 1 := by
    have := h.2
    rwa [List.length_range'] at this
  refine ⟨?_, hcount, ?_⟩
  · simp only [transcribe_segment]
    rw [ht]
  · intro model' p' r'
    have := runAttempts_length_le (model' p') none (List.range' 1 (r' + 1))
    rwa [List.length_range'] at this

/-- C3: `transcribe_segment` is a total function of the client attempt
outcomes: whatever the client does on each attempt (raising -- modeled by
`AttemptOutcome.err` -- or yielding only whitespace), it returns a record
whose `index` component is the given `index`; every transcription-service
failure is absorbed by the retry loop or the final placeholder, never
re-raised. -/
theorem transcribe_segment_total_with_index
    (model : String → Nat → AttemptOutcome) (p : String) (i : Nat)
    (st en : ℚ) (r : Nat) :
    (transcribe_segment model p i st en r).index = i ∧
    (transcribe_segment model p i st en r =
      ⟨i, (transcribe_segment model p i st en r).text⟩) := by
  unfold transcribe_segment
  cases h : (transcribeSegmentRun model p r).text <;> simp [h]

theorem transcribe_segment_placeholder_format_witness :
    transcribe_segment (fun _ _ => .err "boom") "p" 0 0 10 0 =
      ⟨0, "[Transcription failed - 00:00:00 - 00:00:10 Reason: boom]"⟩ := by
  rw [(transcribe_segment_placeholder_format (fun _ _ => .err "boom") "p" 0 0 10 0
      (fun _ => "boom") (fun a h1 h2 => rfl)).1]
  rw [show (0 : ℚ) = ((0 : ℤ) : ℚ) by norm_num, show (10 : ℚ) = ((10 : ℤ) : ℚ) by norm_num,
      format_ts_intCast, format_ts_intCast]
  decide

theorem transcribe_segment_retry_budget_witness :
    transcribe_segment (fun _ a => if a ≤ 1 then .err "x" else .ok ["hi"]) "p" 3 0 10 1 =
      ⟨3, "hi"⟩ ∧
    (transcribeSegmentRun (fun _ a => if a ≤ 1 then .err "x" else .ok ["hi"]) "p" 1).attemptsMade = 2 := by
  have h := transcribe_segment_retry_budget
    (fun _ a => if a ≤ 1 then .err "x" else .ok ["hi"]) "p" 3 0 10 1 1 "hi"
    (by omega)
    (fun a h1 h2 => ⟨"x", by
      have ha : a = 1 := by omega
      subst ha
      decide⟩)
    (by decide)
  exact ⟨h.1, h.2.1⟩

/-- Index of the result record of `transcribe_segment`: always the `index`
argument, by cases on whether some attempt succeeded. -/
theorem transcribe_segment_index (model : String → Nat → AttemptOutcome)
    (p : String) (i : Nat) (st en : ℚ) (r : Nat) :
    (transcribe_segment model p i st en r).index = i := by
  unfold transcribe_segment
  cases h : (transcribeSegmentRun model p r).text <;> simp [h]

/-- Embeds the segment-discovery test `re.match(r"seg\d{3}\.mp3", f)`
(src/transcriber/model.py lines 65 and 68). `re.match` anchors at the
start of the string only (no `fullmatch`, no `$`), so trailing characters
after `seg<3 digits>.mp3` are allowed. `\d` is modeled as an ASCII digit
(the splitter only produces ASCII names). -/
def segNameMatch (f : String) : Bool :=
  match f.data with
  | 's' :: 'e' :: 'g' :: a :: b :: c :: '.' :: 'm' :: 'p' :: '3' :: _ =>
    a.isDigit && b.isDigit && c.isDigit
  | _ => false

/-- Embeds `sorted([f for f in os.listdir(work_dir) if re.match(...)])`
(src/transcriber/model.py lines 65 and 68): filter the directory listing
by the segment-name pattern and sort lexicographically (Python compares
strings by code point, as does `≤` on `String`). -/
def discoverSegments (files : List String) : List String :=
  List.insertionSort (· ≤ ·) (files.filter segNameMatch)

/-- Embeds the duration loop (src/transcriber/model.py lines 72-76):
`d = _probe_duration(path) or float(seg_seconds)` — Python `or` replaces
a falsy (zero) probe result with the nominal `seg_seconds`.
`probe` models `_probe_duration`, which returns `0.0` on any error. -/
def durationsOf (probe : String → ℚ) (workDir : String) (segSeconds : ℚ)
    (segments : List String) : List ℚ :=
  segments.map (fun fname =>
    let d := probe (workDir ++ "/" ++ fname)
    if d = 0 then segSeconds else d)

/-- Embeds the cursor loop (src/transcriber/model.py lines 77-83):
for each duration `d`, append `cursor` to `starts` and `cursor + d` to
`ends`, advancing the cursor. -/
def cumulTimes : List ℚ → ℚ → List (ℚ × ℚ)
  | [], _ => []
  | d :: rest, cursor => (cursor, cursor + d) :: cumulTimes rest (cursor + d)

/-- The `starts` list of `transcribe_file`. -/
def startsOf (ds : List ℚ) : List ℚ := (cumulTimes ds 0).map Prod.fst

/-- The `ends` list of `transcribe_file`. -/
def endsOf (ds : List ℚ) : List ℚ := (cumulTimes ds 0).map Prod.snd

/-- The list of per-segment results gathered by
`asyncio.gather(*tasks)` where `tasks` are created in `enumerate(segments)`
order (src/transcriber/model.py lines 86-92): one `transcribe_segment`
call per segment, at its index and time range. (`asyncio.gather` returns
results in task order; any influence of completion order is modeled by
letting claims quantify over arbitrary permutations of this list.) -/
def segResults (model : String → Nat → AttemptOutcome) (workDir : String)
    (segments : List String) (ds : List ℚ) (max_segment_retries : Nat) :
    List SegResult :=
  (List.range segments.length).map (fun idx =>
    transcribe_segment model (workDir ++ "/" ++ segments.getD idx "")
      idx ((startsOf ds).getD idx 0) ((endsOf ds).getD idx 0) max_segment_retries)

/-- The comparison key `lambda r: r["index"]` used by `sorted` in
`transcribe_file` (src/transcriber/model.py line 93). -/
def segLE (a b : SegResult) : Prop := a.index ≤ b.index

/-- Strict version of `segLE`, for uniqueness of the sorted order. -/
def segLT (a b : SegResult) : Prop := a.index < b.index

instance : DecidableRel segLE := fun a b => Nat.decLe a.index b.index

instance : IsTotal SegResult segLE := ⟨fun a b => Nat.le_total a.index b.index⟩

instance : IsTrans SegResult segLE := ⟨fun _ _ _ h1 h2 => Nat.le_trans h1 h2⟩

instance : IsAntisymm SegResult segLT := ⟨fun _ _ h1 h2 => (Nat.lt_asymm h1 h2).elim⟩

/-- Embeds `ordered = sorted(results, key=lambda r: r["index"])`
(src/transcriber/model.py line 93). Python `sorted` is a stable
comparison sort; insertion sort on the same key agrees with it (the keys
here are pairwise distinct, so stability is immaterial). -/
def sortByIndex (results : List SegResult) : List SegResult :=
  List.insertionSort segLE results

/-- Embeds `full_text = "\n\n".join(r["text"] for r in ordered)`
(src/transcriber/model.py lines 93-94) applied to a gathered result list. -/
def reassemble (results : List SegResult) : String :=
  String.intercalate "\n\n" ((sortByIndex results).map (fun r => r.text))

/-- Embeds `transcribe_file` (src/transcriber/model.py lines 62-95).
`files` is the listing of `work_dir` at discovery time (when
`bypass_split` is false the external `splitter_fn` has populated it
beforehand; either way discovery scans the same listing). The
`max_concurrency` semaphore bounds scheduling only (modeled separately
by `SemStep`); it does not affect the returned value. -/
def transcribe_file (model : String → Nat → AttemptOutcome) (workDir : String)
    (files : List String) (seg_seconds : ℚ) (max_segment_retries : Nat)
    (probe : String → ℚ) : String × List String :=
  let segments := discoverSegments files
  if segments = [] then ("", [])
  else
    let durations := durationsOf probe workDir seg_seconds segments
    let results := segResults model workDir segments durations max_segment_retries
    (reassemble results, segments)

theorem segResults_pairwise_lt (model : String → Nat → AttemptOutcome)
    (workDir : String) (segments : List String) (ds : List ℚ) (r : Nat) :
    (segResults model workDir segments ds r).Pairwise segLT := by
  unfold segResults
  rw [List.pairwise_map]
  refine (List.pairwise_lt_range _).imp ?_
  intro i j hij
  unfold segLT
  rw [transcribe_segment_index, transcribe_segment_index]
  exact hij

theorem sortByIndex_of_perm (canonical delivered : List SegResult)
    (hsorted : canonical.Pairwise segLT) (hperm : delivered.Perm canonical) :
    sortByIndex delivered = canonical := by
  have hperm2 : (sortByIndex delivered).Perm canonical :=
    (List.perm_insertionSort segLE delivered).trans hperm
  have hs1 : (sortByIndex delivered).Pairwise segLE :=
    List.sorted_insertionSort segLE delivered
  have hne : canonical.Pairwise (fun a b => a.index ≠ b.index) :=
    hsorted.imp (fun h => Nat.ne_of_lt h)
  have hne2 : (sortByIndex delivered).Pairwise (fun a b => a.index ≠ b.index) :=
    (List.Perm.pairwise_iff (fun h => Ne.symm h) hperm2).2 hne
  have hlt : (sortByIndex delivered).Pairwise segLT :=
    (hs1.and hne2).imp (fun h => Nat.lt_of_le_of_ne h.1 h.2)
  exact List.eq_of_perm_of_sorted hperm2 hlt hsorted

theorem sortByIndex_sorted_self (canonical : List SegResult)
    (hsorted : canonical.Pairwise segLT) : sortByIndex canonical = canonical :=
  sortByIndex_of_perm canonical canonical hsorted (List.Perm.refl canonical)

/-- C1: the transcript is the index-ordered blank-line join of the segment
result texts, and is invariant under any permutation of the gathered
result list — in particular under any completion order of the concurrent
per-segment tasks. -/
theorem transcribe_file_order_deterministic
    (model : String → Nat → AttemptOutcome) (workDir : String)
    (files : List String) (seg_seconds : ℚ) (r : Nat) (probe : String → ℚ)
    (delivered : List SegResult)
    (hperm : delivered.Perm (segResults model workDir (discoverSegments files)
      (durationsOf probe workDir seg_seconds (discoverSegments files)) r)) :
    reassemble delivered =
      String.intercalate "\n\n"
        ((segResults model workDir (discoverSegments files)
          (durationsOf probe workDir seg_seconds (discoverSegments files)) r).map
            (fun x => x.text)) ∧
    (discoverSegments files ≠ [] →
      (transcribe_file model workDir files seg_seconds r probe).1 =
        reassemble delivered) := by
  have hsorted := segResults_pairwise_lt model workDir (discoverSegments files)
    (durationsOf probe workDir seg_seconds (discoverSegments files)) r
  have h1 : reassemble delivered =
      String.intercalate "\n\n"
        ((segResults model workDir (discoverSegments files)
          (durationsOf probe workDir seg_seconds (discoverSegments files)) r).map
            (fun x => x.text)) := by
    unfold reassemble
    rw [sortByIndex_of_perm _ delivered hsorted hperm]
  refine ⟨h1, fun hne => ?_⟩
  simp only [transcribe_file, if_neg hne]
  unfold reassemble
  rw [sortByIndex_of_perm _ delivered hsorted hperm,
      sortByIndex_sorted_self _ hsorted]

theorem transcribe_file_order_deterministic_witness :
    reassemble ((segResults (fun _ _ => .err "e") "w"
      (discoverSegments ["seg001.mp3", "seg000.mp3"])
      (durationsOf (fun _ => 0) "w" 10 (discoverSegments ["seg001.mp3", "seg000.mp3"])) 0).reverse) =
      String.intercalate "\n\n"
        ((segResults (fun _ _ => .err "e") "w"
          (discoverSegments ["seg001.mp3", "seg000.mp3"])
          (durationsOf (fun _ => 0) "w" 10 (discoverSegments ["seg001.mp3", "seg000.mp3"])) 0).map
            (fun x => x.text)) :=
  (transcribe_file_order_deterministic (fun _ _ => .err "e") "w"
    ["seg001.mp3", "seg000.mp3"] 10 0 (fun _ => 0) _ (List.reverse_perm _)).1

/-- C2: `transcribe_file` produces exactly one result per discovered
segment, with indices exactly `0 .. N-1` (no drop, no duplicate), and an
empty discovery yields `("", [])` rather than an error. -/
theorem transcribe_file_one_result_per_segment
    (model : String → Nat → AttemptOutcome) (workDir : String)
    (files : List String) (seg_seconds : ℚ) (r : Nat) (probe : String → ℚ) :
    (segResults model workDir (discoverSegments files)
        (durationsOf probe workDir seg_seconds (discoverSegments files)) r).map
          (fun x => x.index) =
      List.range (discoverSegments files).length ∧
    (segResults model workDir (discoverSegments files)
        (durationsOf probe workDir seg_seconds (discoverSegments files)) r).length =
      (discoverSegments files).length ∧
    (discoverSegments files = [] →
      transcribe_file model workDir files seg_seconds r probe = ("", [])) := by
  refine ⟨?_, ?_, fun h => ?_⟩
  · unfold segResults
    rw [List.map_map]
    rw [List.map_congr_left (fun i _ => ?_), List.map_id]
    exact transcribe_segment_index _ _ _ _ _ _
  · unfold segResults
    rw [List.length_map, List.length_range]
  · simp [transcribe_file, h]

theorem transcribe_file_one_result_per_segment_witness :
    transcribe_file (fun _ _ => .err "e") "w" ["notes.txt"] 10 0 (fun _ => 0) = ("", []) :=
  (transcribe_file_one_result_per_segment (fun _ _ => .err "e") "w"
    ["notes.txt"] 10 0 (fun _ => 0)).2.2 (by decide)

theorem cumulTimes_length (ds : List ℚ) (c : ℚ) :
    (cumulTimes ds c).length = ds.length := by
  induction ds generalizing c with
  | nil => rfl
  | cons d rest ih => simp [cumulTimes, ih]

theorem cumulTimes_getElem? (ds : List ℚ) :
    ∀ (c : ℚ) (i : Nat), i < ds.length →
      (cumulTimes ds c)[i]? = some (c + (ds.take i).sum, c + (ds.take (i + 1)).sum) := by
  induction ds with
  | nil => intro c i h; simp at h
  | cons d rest ih =>
    intro c i h
    cases i with
    | zero => simp [cumulTimes]
    | succ j =>
      have hj : j < rest.length := by simpa using h
      simp only [cumulTimes, List.getElem?_cons_succ]
      rw [ih (c + d) j hj]
      simp only [List.take_succ_cons, List.sum_cons, Option.some.injEq, Prod.mk.injEq]
      constructor <;> ring

theorem startsOf_getElem? (ds : List ℚ) (i : Nat) (h : i < ds.length) :
    (startsOf ds)[i]? = some ((ds.take i).sum) := by
  unfold startsOf
  rw [List.getElem?_map, cumulTimes_getElem? ds 0 i h]
  simp

theorem endsOf_getElem? (ds : List ℚ) (i : Nat) (h : i < ds.length) :
    (endsOf ds)[i]? = some ((ds.take (i + 1)).sum) := by
  unfold endsOf
  rw [List.getElem?_map, cumulTimes_getElem? ds 0 i h]
  simp

/-- C6: with the per-segment durations computed by `transcribe_file`
(measured duration, or the nominal `seg_seconds` when probing fails),
the start of every segment is the sum of the preceding durations, its end is
its start plus its own duration, and consecutive segments abut:
`start_i = end_(i-1)` for `i ≥ 1` (and `start_0 = 0`, the empty sum). -/
theorem transcribe_file_time_ranges (probe : String → ℚ) (workDir : String)
    (seg_seconds : ℚ) (segments : List String) :
    ∀ i, i < (durationsOf probe workDir seg_seconds segments).length →
      (startsOf (durationsOf probe workDir seg_seconds segments)).getD i 0 =
          ((durationsOf probe workDir seg_seconds segments).take i).sum ∧
        (endsOf (durationsOf probe workDir seg_seconds segments)).getD i 0 =
          (startsOf (durationsOf probe workDir seg_seconds segments)).getD i 0 +
            (durationsOf probe workDir seg_seconds segments).getD i 0 ∧
        (1 ≤ i →
          (startsOf (durationsOf probe workDir seg_seconds segments)).getD i 0 =
            (endsOf (durationsOf probe workDir seg_seconds segments)).getD (i - 1) 0) := by
  intro i h
  set ds := durationsOf probe workDir seg_seconds segments with hds
  have hs := startsOf_getElem? ds i h
  have he := endsOf_getElem? ds i h
  refine ⟨?_, ?_, ?_⟩
  · rw [List.getD_eq_getElem?_getD, hs]
    rfl
  · rw [List.getD_eq_getElem?_getD, he, List.getD_eq_getElem?_getD, hs,
        List.getD_eq_getElem?_getD]
    have hgd : ds[i]? = some ds[i] := List.getElem?_eq_getElem h
    rw [hgd]
    simp only [Option.getD_some]
    rw [List.sum_take_succ]
  · intro h1
    have he' := endsOf_getElem? ds (i - 1) (by omega)
    rw [List.getD_eq_getElem?_getD, hs, List.getD_eq_getElem?_getD, he']
    simp only [Option.getD_some]
    congr 2
    omega

theorem transcribe_file_time_ranges_witness :
    1 < (durationsOf (fun _ => 0) "w" 10 ["seg000.mp3", "seg001.mp3"]).length ∧
    (startsOf (durationsOf (fun _ => 0) "w" 10 ["seg000.mp3", "seg001.mp3"])).getD 1 0 =
      ((durationsOf (fun _ => 0) "w" 10 ["seg000.mp3", "seg001.mp3"]).take 1).sum :=
  ⟨by norm_num [durationsOf],
   (transcribe_file_time_ranges (fun _ => 0) "w" 10 ["seg000.mp3", "seg001.mp3"] 1
      (by norm_num [durationsOf])).1⟩

/-- Phase of one per-segment task in the concurrent section of `transcribe_file`
section: not yet admitted by the semaphore, inside the `async with sem`
block (its transcription call in flight), or finished (with a success or
a placeholder result). -/
inductive TaskPhase where
  | waiting
  | running
  | done
deriving DecidableEq

/-- Scheduler state for the concurrent section of `transcribe_file`
(src/transcriber/model.py lines 84-92): the counter of
`asyncio.Semaphore(max_concurrency)` and the phase of each task. -/
structure SchedState where
  sem : Nat
  tasks : List TaskPhase
deriving DecidableEq

/-- The two scheduler transitions of the `async with sem` block of
`run_segment`: entering acquires the semaphore (counter must be positive; it is
decremented and the `transcribe_segment` call of the task starts), and leaving
releases it (counter incremented), whether the segment succeeded or
produced a placeholder. The cooperative scheduler runs one transition at
a time. -/
inductive SemStep : SchedState → SchedState → Prop
  | acquire (sem : Nat) (l₁ l₂ : List TaskPhase) :
      SemStep ⟨sem + 1, l₁ ++ .waiting :: l₂⟩ ⟨sem, l₁ ++ .running :: l₂⟩
  | release (sem : Nat) (l₁ l₂ : List TaskPhase) :
      SemStep ⟨sem, l₁ ++ .running :: l₂⟩ ⟨sem + 1, l₁ ++ .done :: l₂⟩

/-- Initial scheduler state: semaphore at `max_concurrency = k`, all `n`
per-segment tasks waiting for admission. -/
def initState (k n : Nat) : SchedState := ⟨k, List.replicate n .waiting⟩

/-- Number of segment transcriptions currently in flight. -/
def inFlight (s : SchedState) : Nat := s.tasks.count .running

theorem semStep_invariant (k : Nat) (s s' : SchedState)
    (hstep : SemStep s s') (hinv : inFlight s + s.sem = k) :
    inFlight s' + s'.sem = k := by
  cases hstep with
  | acquire sem l₁ l₂ =>
    simp [inFlight, List.count_append, List.count_cons] at hinv ⊢
    omega
  | release sem l₁ l₂ =>
    simp [inFlight, List.count_append, List.count_cons] at hinv ⊢
    omega

/-- C9: in every scheduler state reachable from the initial state with
`max_concurrency = k` and `n` segment tasks, the number of in-flight
transcription calls plus the semaphore counter equals `k`; in particular
at most `k` segments are in flight at any point, regardless of `n`. -/
theorem transcribe_file_concurrency_cap (k n : Nat) (s : SchedState)
    (h : Relation.ReflTransGen SemStep (initState k n) s) :
    inFlight s + s.sem = k ∧ inFlight s ≤ k := by
  have hmain : inFlight s + s.sem = k := by
    induction h with
    | refl =>
      simp only [inFlight, initState]
      rw [List.count_replicate]
      simp
    | tail hab hbc ih => exact semStep_invariant k _ _ hbc ih
  exact ⟨hmain, by omega⟩

theorem transcribe_file_concurrency_cap_witness :
    inFlight ⟨0, [.running, .waiting]⟩ + (SchedState.mk 0 [.running, .waiting]).sem = 1 ∧
    inFlight ⟨0, [.running, .waiting]⟩ ≤ 1 :=
  transcribe_file_concurrency_cap 1 2 ⟨0, [.running, .waiting]⟩
    (Relation.ReflTransGen.single (SemStep.acquire 0 [] [.waiting]))

/-- Embeds Python `out_pattern.replace("%03d", "000")`
(src/transcriber/audio.py line 74): replace every occurrence of the
4-character pattern. -/
def replace03d : List Char → List Char
  | '%' :: '0' :: '3' :: 'd' :: rest => '0' :: '0' :: '0' :: replace03d rest
  | c :: rest => c :: replace03d rest
  | [] => []

/-- String version of `replace03d`. -/
def replacePercent03d (s : String) : String := ⟨replace03d s.data⟩

/-- The single external filesystem effect `split_mp3_by_size` performs:
either a `shutil.copyfile` of the source to the index-0 segment name, or
an ffmpeg fixed-duration stream-copy split with the computed
`-segment_time`. -/
inductive SplitAction where
  | copySingle (src dst : String)
  | ffmpegSplit (src pattern : String) (segmentTime : ℤ)
deriving DecidableEq

/-- Embeds `split_mp3_by_size` (src/transcriber/audio.py lines 62-99).
`fileSize path = none` models a missing file (`os.path.exists` false, so
`FileNotFoundError` — the `Except.error` case); `bitrate` models
`_get_bitrate_bits`, which returns `None` on any ffprobe failure, and
the Python condition `if bitrate_bits and bitrate_bits > 0` accepts exactly a present
positive value. The byte-rate estimate is modeled over exact rationals
(`SAFETY = 0.9` is `9/10`); `int()` truncation of the non-negative
estimate is `Int.floor`. The two reassignments of `duration_target`
mirror the clamping order of the source: first `max(30, ·)`, then
`min(fallback_seg_seconds, ·)`. -/
def split_mp3_by_size (fileSize : String → Option Nat) (bitrate : String → Option ℤ)
    (mp3_path out_pattern : String) (max_segment_size : Nat)
    (fallback_seg_seconds : ℤ) : Except String SplitAction :=
  match fileSize mp3_path with
  | none => .error mp3_path
  | some raw_size =>
    if raw_size ≤ max_segment_size then
      .ok (.copySingle mp3_path (replacePercent03d out_pattern))
    else
      match bitrate mp3_path with
      | some bitrate_bits =>
        if 0 < bitrate_bits then
          let bytes_per_sec : ℚ := (bitrate_bits : ℚ) / 8
          let duration_target : ℤ := ⌊((max_segment_size : ℚ) * (9/10)) / bytes_per_sec⌋
          let duration_target := max 30 duration_target
          let duration_target := min fallback_seg_seconds duration_target
          .ok (.ffmpegSplit mp3_path out_pattern duration_target)
        else .ok (.ffmpegSplit mp3_path out_pattern fallback_seg_seconds)
      | none => .ok (.ffmpegSplit mp3_path out_pattern fallback_seg_seconds)

/-- Interpretation of a `SplitAction` on a filesystem (paths to byte
contents): `copySingle` is `shutil.copyfile` (the destination gets the
bytes of the source, everything else is untouched); `ffmpegSplit` is the
external ffmpeg collaborator `ext`. -/
def applySplitAction
    (ext : String → String → ℤ → (String → Option (List Nat)) → (String → Option (List Nat)))
    (fs : String → Option (List Nat)) : SplitAction → (String → Option (List Nat))
  | .copySingle src dst => fun p => if p = dst then fs src else fs p
  | .ffmpegSplit src pat d => ext src pat d fs

/-- Clamp `x` into the interval `[lo, hi]`, as the spec formulates the
duration bound. -/
def clamp (x lo hi : ℤ) : ℤ := min hi (max lo x)

/-- C7: when the source size exceeds the ceiling `C` and the probed
bit-rate `B` (bits/sec) is available and positive, the split duration is
`clamp(⌊C * 0.9 / (B/8)⌋, 30, fallback)`; when the bit-rate is
unavailable, it is exactly `fallback`. -/
theorem split_duration_formula (fileSize : String → Option Nat)
    (bitrate : String → Option ℤ) (p pat : String) (C S : Nat) (fallback : ℤ)
    (hS : fileSize p = some S) (hgt : C < S) :
    (∀ B : ℤ, bitrate p = some B → 0 < B →
      split_mp3_by_size fileSize bitrate p pat C fallback =
        .ok (.ffmpegSplit p pat
          (clamp ⌊((C : ℚ) * (9/10)) / ((B : ℚ) / 8)⌋ 30 fallback))) ∧
    (bitrate p = none →
      split_mp3_by_size fileSize bitrate p pat C fallback =
        .ok (.ffmpegSplit p pat fallback)) := by
  constructor
  · intro B hB hBpos
    simp only [split_mp3_by_size, hS, hB]
    rw [if_neg (by omega), if_pos hBpos]
    rfl
  · intro hB
    simp only [split_mp3_by_size, hS, hB]
    rw [if_neg (by omega)]

theorem split_duration_formula_witness :
    split_mp3_by_size (fun _ => some 2000) (fun _ => some 800) "a.mp3" "w/seg%03d.mp3" 1000 3600 =
      .ok (.ffmpegSplit "a.mp3" "w/seg%03d.mp3"
        (clamp ⌊((1000 : ℚ) * (9/10)) / ((800 : ℚ) / 8)⌋ 30 3600)) :=
  (split_duration_formula (fun _ => some 2000) (fun _ => some 800) "a.mp3" "w/seg%03d.mp3"
    1000 2000 3600 rfl (by omega)).1 800 rfl (by omega)

/-- C8: a source whose size is at most the ceiling is not split: the only
effect is one copy of the source file to the index-0 segment name
(`out_pattern` with `%03d` replaced by `000` — e.g. `seg000.mp3`), whose
contents equal those of the source, and no external ffmpeg split is invoked. -/
theorem split_small_file_single_copy (fileSize : String → Option Nat)
    (bitrate : String → Option ℤ) (p pat : String) (C S : Nat) (fallback : ℤ)
    (ext : String → String → ℤ → (String → Option (List Nat)) → (String → Option (List Nat)))
    (fs : String → Option (List Nat))
    (hS : fileSize p = some S) (hle : S ≤ C) :
    split_mp3_by_size fileSize bitrate p pat C fallback =
      .ok (.copySingle p (replacePercent03d pat)) ∧
    applySplitAction ext fs (.copySingle p (replacePercent03d pat)) (replacePercent03d pat) =
      fs p ∧
    (∀ src pat2 d, split_mp3_by_size fileSize bitrate p pat C fallback ≠
      .ok (.ffmpegSplit src pat2 d)) ∧
    replacePercent03d "seg%03d.mp3" = "seg000.mp3" := by
  have h1 : split_mp3_by_size fileSize bitrate p pat C fallback =
      .ok (.copySingle p (replacePercent03d pat)) := by
    simp only [split_mp3_by_size, hS]
    rw [if_pos hle]
  refine ⟨h1, ?_, ?_, by decide⟩
  · simp [applySplitAction]
  · intro src pat2 d
    rw [h1]
    simp

theorem split_small_file_single_copy_witness :
    split_mp3_by_size (fun _ => some 100) (fun _ => none) "a.mp3" "w/seg%03d.mp3" 1000 3600 =
      .ok (.copySingle "a.mp3" (replacePercent03d "w/seg%03d.mp3")) :=
  (split_small_file_single_copy (fun _ => some 100) (fun _ => none) "a.mp3" "w/seg%03d.mp3"
    1000 100 3600 (fun _ _ _ fs => fs) (fun _ => none) rfl (by omega)).1

/-- C10: a file in the work directory is discovered as a segment iff its
name begins with `seg`, three digits, and `.mp3`; the regex is anchored
only at the start (Python `re.match` with no `$` or `fullmatch`), so
names with trailing characters after the pattern, such as
`seg000.mp3.bak` or `seg000.mp3x`, are also discovered and transcribed. -/
theorem segment_discovery_prefix_match (files : List String) (f : String) :
    (f ∈ discoverSegments files ↔ f ∈ files ∧ segNameMatch f = true) ∧
    (segNameMatch f = true ↔ ∃ a b c rest, a.isDigit = true ∧ b.isDigit = true ∧
      c.isDigit = true ∧
      f.data = 's' :: 'e' :: 'g' :: a :: b :: c :: '.' :: 'm' :: 'p' :: '3' :: rest) ∧
    segNameMatch "seg000.mp3.bak" = true ∧ segNameMatch "seg000.mp3x" = true ∧
    segNameMatch "seg000.mp3" = true ∧ segNameMatch "seg00.mp3" = false := by
  refine ⟨?_, ?_, by decide, by decide, by decide, by decide⟩
  · unfold discoverSegments
    rw [(List.perm_insertionSort (fun a b => a ≤ b) (files.filter segNameMatch)).mem_iff,
        List.mem_filter]
  · constructor
    · intro h
      unfold segNameMatch at h
      split at h
      · rename_i a b c tail heq
        simp only [Bool.and_eq_true] at h
        exact ⟨a, b, c, tail, h.1.1, h.1.2, h.2, heq⟩
      · exact absurd h (by simp)
    · rintro ⟨a, b, c, rest, ha, hb, hc, hdata⟩
      unfold segNameMatch
      rw [hdata]
      simp [ha, hb, hc]

end Transcribe
